import Mathlib

/-!
# Verification of the Hedera SDK core value types

Shallow embedding of the repository's two core source files:

* `Hbar.ts` (`src/unnamed/part_000`) — the monetary amount type. BigNumber
  values are modelled as exact rationals (`ℚ`). BigNumber.js performs exact
  multiplication, addition, subtraction and negation; division rounds at 20
  decimal places by default, but every division reachable in the modelled
  code paths divides by a power of ten no larger than `10^17` with operands
  whose decimal expansions stay within 20 places on the inputs the theorems
  quantify over, so the rational model agrees with BigNumber there.
* `ExchangeRate.ts` — the exchange-rate projection (`exchangeRateToSdk`,
  `exchangeRateSetToSdk`) and the transaction-identifier class
  (`fromString`, `toString`, `setNonce`, `setScheduled`, `compare`,
  `_toProtobuf`, `_fromProtobuf`). JavaScript strings are modelled as lists
  of character codes (`List Nat`). `Long` (64-bit) values are modelled as
  `Int`, with the 32-bit truncation of `Long.toInt` made explicit.

The `TransactionId` constructor itself, the `AccountId` collaborator
(`fromString` / `toString` / `compare` / `_toProtobuf`) and the `Timestamp`
collaborator (`compare` / `_toProtobuf`) are not part of the sources; they
are modelled from the spec where noted.
-/

/-! ## The amount type: `Hbar.ts` -/

/-- The seven denominations of `HbarUnit` (closed set, from the source). -/
inductive HbarUnit
  | tinybar
  | microbar
  | millibar
  | hbar
  | kilobar
  | megabar
  | gigabar
  deriving DecidableEq, Repr

namespace HbarUnit

/-- `HbarUnit._toTinybarCount` from the source: the exact integer factor of
each denomination, as a rational BigNumber value. -/
def toTinybarCount : HbarUnit → ℚ
  | .tinybar => 1
  | .microbar => 100
  | .millibar => 100000
  | .hbar => 100000000
  | .kilobar => 100000000 * 1000
  | .megabar => 100000000 * 1000000
  | .gigabar => 100000000 * 1000000000

theorem toTinybarCount_pos (u : HbarUnit) : 0 < u.toTinybarCount := by
  cases u <;> norm_num [toTinybarCount]

end HbarUnit

/-- `const maxTinybar = new BigNumber(2).pow(63).minus(1)` from the source. -/
def maxTinybar : ℚ := 2 ^ 63 - 1

/-- `const minTinybar = new BigNumber(-2).pow(63)` from the source.
Defined in the source but never consulted by `Hbar._check`. -/
def minTinybar : ℚ := (-2) ^ 63

/-- An `Hbar` instance: the stored `_tinybar` BigNumber. The `_unit` field is
always `HbarUnit.Hbar` after construction and only affects `Hbar.toString`,
which no claim concerns, so it is omitted. -/
structure Hbar where
  tinybar : ℚ
  deriving DecidableEq, Repr

/-- The two `throw new HbarRangeError(...)` sites. Both raise the same
JavaScript error class `HbarRangeError`; the model distinguishes the site:
`guardErr` is the `2 ** 53` guard at the top of `Hbar.fromTinybar`,
`rangeErr` is the throw inside `Hbar._check`. -/
inductive HbarErr
  | guardErr
  | rangeErr
  deriving DecidableEq, Repr

/-- A caller-supplied `number | BigNumber | string` amount. A `number` is a
double whose exact rational value is `q`; `bignum` covers both `BigNumber`
and string inputs, which convert exactly. Only `Hbar.fromTinybar` inspects
the distinction (its `typeof amount === "number"` guard). -/
inductive AmountValue
  | number (q : ℚ)
  | bignum (q : ℚ)
  deriving DecidableEq, Repr

/-- The rational value carried by an `AmountValue`. -/
def AmountValue.q : AmountValue → ℚ
  | .number q => q
  | .bignum q => q

namespace Hbar

/-- `Hbar._check(allowNegative)` from the source, as the condition under
which it throws:

```
if (this._tinybar.isNegative() && !allowNegative && this._tinybar.isLessThan(maxTinybar)) throw ...
if (this._tinybar.isGreaterThan(maxTinybar)) throw ...
```

Note: the source never compares against `minTinybar`. -/
def checkFails (allowNegative : Bool) (t : ℚ) : Bool :=
  (decide (t < 0) && !allowNegative && decide (t < maxTinybar)) || decide (maxTinybar < t)

/-- The public constructor `new Hbar(amount)`: multiply by
`HbarUnit.Hbar._toTinybarCount()` (= `10^8`) and run `_check(true)`. -/
def construct (amount : ℚ) : Except HbarErr Hbar :=
  let t := amount * (100000000 : ℚ)
  if checkFails true t then .error .rangeErr else .ok ⟨t⟩

/-- `Hbar.fromTinybar(amount)` from the source: a `number` input `>= 2 ** 53`
throws `HbarRangeError` immediately; otherwise the amount is divided by
`10^8` and handed to the constructor. -/
def fromTinybar : AmountValue → Except HbarErr Hbar
  | .number q =>
      if (2 : ℚ) ^ 53 ≤ q then .error .guardErr
      else construct (q / (100000000 : ℚ))
  | .bignum q => construct (q / (100000000 : ℚ))

/-- `Hbar.from(amount, unit)` from the source (named `fromUnit` here because
`from` is a Lean keyword): multiply by the unit's factor, divide by `10^8`,
construct. -/
def fromUnit (amount : ℚ) (unit : HbarUnit) : Except HbarErr Hbar :=
  construct (amount * unit.toTinybarCount / (100000000 : ℚ))

/-- `Hbar.as(unit)` from the source: the raw `_tinybar` for the tinybar
unit, otherwise exact division by the unit's factor. -/
def as (h : Hbar) (unit : HbarUnit) : ℚ :=
  if unit = .tinybar then h.tinybar else h.tinybar / unit.toTinybarCount

/-- `Hbar.multipliedBy(amount)` from the source:
`new Hbar(this._tinybar.multipliedBy(amount))` — the product is handed to
the constructor with no division by `10^8`. -/
def multipliedBy (h : Hbar) (amount : ℚ) : Except HbarErr Hbar :=
  construct (h.tinybar * amount)

/-- `Hbar.plus(hbar)` (the `Hbar`-operand overload) from the source:
`new Hbar(this._tinybar.plus(amount._tinybar).dividedBy(10^8))`. -/
def plus (h other : Hbar) : Except HbarErr Hbar :=
  construct ((h.tinybar + other.tinybar) / (100000000 : ℚ))

/-- `Hbar.minus(hbar)` (the `Hbar`-operand overload) from the source. -/
def minus (h other : Hbar) : Except HbarErr Hbar :=
  construct ((h.tinybar - other.tinybar) / (100000000 : ℚ))

/-- `Hbar.negated()` from the source:
`new Hbar(this._tinybar.negated().dividedBy(10^8))`. -/
def negated (h : Hbar) : Except HbarErr Hbar :=
  construct (-h.tinybar / (100000000 : ℚ))

end Hbar

/-! ## The exchange-rate projection: `ExchangeRate.ts` -/

/-- The decoded protobuf `ExchangeRate` message: `getHbarequiv()`,
`getCentequiv()`, and `getExpirationtime().getSeconds()`. -/
structure ProtoExchangeRate where
  hbarequiv : Int
  centequiv : Int
  expirationtimeSeconds : Int
  deriving DecidableEq, Repr

/-- A JavaScript `Date` constructed as `new Date(ms)`: stores its raw
numeric argument. -/
structure JsDate where
  millis : Int
  deriving DecidableEq, Repr

/-- The SDK-side `ExchangeRate` interface. -/
structure ExchangeRate where
  hbarEquiv : Int
  centEquiv : Int
  expirationTime : JsDate
  deriving DecidableEq, Repr

/-- The decoded protobuf `ExchangeRateSet` message, with its two rate
fields (`getCurrentrate()`, `getNextrate()`) present as the source's
non-null assertions require. -/
structure ProtoExchangeRateSet where
  currentrate : ProtoExchangeRate
  nextrate : ProtoExchangeRate
  deriving DecidableEq, Repr

/-- The SDK-side `ExchangeRateSet` interface. -/
structure ExchangeRateSet where
  currentRate : ExchangeRate
  nextRate : ExchangeRate
  deriving DecidableEq, Repr

/-- `exchangeRateToSdk` from the source. -/
def exchangeRateToSdk (r : ProtoExchangeRate) : ExchangeRate :=
  { hbarEquiv := r.hbarequiv
    centEquiv := r.centequiv
    expirationTime := ⟨r.expirationtimeSeconds⟩ }

/-- `exchangeRateSetToSdk` from the source: both fields are projected from
`exchangeRateSet.getCurrentrate()`. -/
def exchangeRateSetToSdk (s : ProtoExchangeRateSet) : ExchangeRateSet :=
  { currentRate := exchangeRateToSdk s.currentrate
    nextRate := exchangeRateToSdk s.currentrate }

/-! ## Decidable equality for `Except` results -/

instance {ε α : Type} [DecidableEq ε] [DecidableEq α] : DecidableEq (Except ε α) := fun a b =>
  match a, b with
  | .error x, .error y =>
      if h : x = y then .isTrue (by rw [h]) else .isFalse (fun hc => h (Except.error.inj hc))
  | .ok x, .ok y =>
      if h : x = y then .isTrue (by rw [h]) else .isFalse (fun hc => h (Except.ok.inj hc))
  | .error _, .ok _ => .isFalse (fun hc => Except.noConfusion hc)
  | .ok _, .error _ => .isFalse (fun hc => Except.noConfusion hc)

/-! ## Helper lemmas about `Hbar.construct` -/

/-- The constructor succeeds exactly when the scaled value stays at or below
`maxTinybar`; `_check(true)` tests no lower bound. -/
theorem Hbar.construct_ok {q : ℚ} (h : q * 100000000 ≤ maxTinybar) :
    Hbar.construct q = .ok ⟨q * 100000000⟩ := by
  simp [Hbar.construct, Hbar.checkFails, not_lt.mpr h]

/-- The constructor fails (with the `_check` range error) exactly when the
scaled value exceeds `maxTinybar`. -/
theorem Hbar.construct_err {q : ℚ} (h : maxTinybar < q * 100000000) :
    Hbar.construct q = .error .rangeErr := by
  simp [Hbar.construct, Hbar.checkFails, h]

/-! ## Claim theorems for the amount type -/

/-- Claim C1 (evaluation at the claim's four inputs): `fromTinybar` on exact
inputs rejects `2^63`, accepts `2^63 - 1` and `-2^63`, and — contrary to
the claim — also accepts `-2^63 - 1`, because `Hbar._check` never compares
the stored value against `minTinybar`. -/
theorem hbar_fromTinybar_range_ends :
    Hbar.fromTinybar (.bignum ((2 : ℚ) ^ 63)) = .error .rangeErr ∧
    Hbar.fromTinybar (.bignum ((2 : ℚ) ^ 63 - 1)) = .ok ⟨(2 : ℚ) ^ 63 - 1⟩ ∧
    Hbar.fromTinybar (.bignum (-(2 : ℚ) ^ 63)) = .ok ⟨-(2 : ℚ) ^ 63⟩ ∧
    Hbar.fromTinybar (.bignum (-(2 : ℚ) ^ 63 - 1)) = .ok ⟨-(2 : ℚ) ^ 63 - 1⟩ := by
  refine ⟨?_, ?_, ?_, ?_⟩ <;>
    norm_num [Hbar.fromTinybar, Hbar.construct, Hbar.checkFails, maxTinybar]

/-- Claim C3 (evaluation): `plus`, `minus` and `negated` act exactly on the
atomic value, but `multipliedBy` misses the `dividedBy(10^8)` step that the
other three apply before re-entering the constructor, so
`fromTinybar(1).multipliedBy(2)` stores `200000000` tinybar instead of `2`. -/
theorem hbar_arithmetic_eval :
    Hbar.plus ⟨3⟩ ⟨4⟩ = .ok ⟨7⟩ ∧
    Hbar.minus ⟨10⟩ ⟨4⟩ = .ok ⟨6⟩ ∧
    Hbar.negated ⟨5⟩ = .ok ⟨-5⟩ ∧
    Hbar.multipliedBy ⟨1⟩ 2 = .ok ⟨200000000⟩ := by
  refine ⟨?_, ?_, ?_, ?_⟩ <;>
    norm_num [Hbar.plus, Hbar.minus, Hbar.negated, Hbar.multipliedBy,
      Hbar.construct, Hbar.checkFails, maxTinybar]

/-- Claim C5 (counterexample): the public constructor performs no
integrality check — the input `10^-9` (one billionth of the base unit)
constructs successfully and stores the fractional atomic value `1/10`,
which is not an integer. -/
theorem hbar_construct_fractional :
    Hbar.construct ((1 : ℚ) / 10 ^ 9) = .ok ⟨1 / 10⟩ ∧
    ¬ ∃ n : ℤ, ((1 : ℚ) / 10) = (n : ℚ) := by
  constructor
  · norm_num [Hbar.construct, Hbar.checkFails, maxTinybar]
  · rintro ⟨n, hn⟩
    have h10 : ((10 * n : ℤ) : ℚ) = 1 := by push_cast; rw [← hn]; ring
    have : (10 * n : ℤ) = 1 := by exact_mod_cast h10
    omega

/-- Claim C5 (amended): every construction path performs exact arithmetic —
the constructor stores exactly `amount * 10^8`, `from` stores exactly
`amount * factor`, and `fromTinybar` stores exactly the atomic input — so
whenever the scaled input is an integer the stored atomic value is that
exact integer; but integrality itself is not enforced (see the
counterexample). -/
theorem hbar_construction_exact :
    (∀ q : ℚ, q * 100000000 ≤ maxTinybar →
      Hbar.construct q = .ok ⟨q * 100000000⟩) ∧
    (∀ (v : ℤ) (u : HbarUnit), (v : ℚ) * u.toTinybarCount ≤ maxTinybar →
      Hbar.fromUnit (v : ℚ) u = .ok ⟨(v : ℚ) * u.toTinybarCount⟩) ∧
    (∀ v : ℤ, (v : ℚ) ≤ maxTinybar →
      Hbar.fromTinybar (.bignum (v : ℚ)) = .ok ⟨(v : ℚ)⟩) := by
  refine ⟨fun q h => Hbar.construct_ok h, fun v u h => ?_, fun v h => ?_⟩
  · have hcancel : (v : ℚ) * u.toTinybarCount / 100000000 * 100000000 =
        (v : ℚ) * u.toTinybarCount := div_mul_cancel₀ _ (by norm_num)
    rw [Hbar.fromUnit, Hbar.construct_ok (by rw [hcancel]; exact h), hcancel]
  · have hcancel : (v : ℚ) / 100000000 * 100000000 = (v : ℚ) :=
      div_mul_cancel₀ _ (by norm_num)
    rw [Hbar.fromTinybar, Hbar.construct_ok (by rw [hcancel]; exact h), hcancel]

/-- Witness for the amended C5 theorem at concrete inputs. -/
theorem hbar_construction_exact_witness :
    Hbar.construct 1 = .ok ⟨(1 : ℚ) * 100000000⟩ ∧
    Hbar.fromUnit ((5 : ℤ) : ℚ) .microbar = .ok ⟨((5 : ℤ) : ℚ) * HbarUnit.microbar.toTinybarCount⟩ ∧
    Hbar.fromTinybar (.bignum ((7 : ℤ) : ℚ)) = .ok ⟨((7 : ℤ) : ℚ)⟩ :=
  ⟨hbar_construction_exact.1 1 (by norm_num [maxTinybar]),
   hbar_construction_exact.2.1 5 .microbar (by norm_num [maxTinybar, HbarUnit.toTinybarCount]),
   hbar_construction_exact.2.2 7 (by norm_num [maxTinybar])⟩

/-- Claim C8 (counterexample): the precision guard in `fromTinybar` tests
`amount >= 2 ** 53` only, so it does not apply to the magnitude of negative
`number` inputs: `-2^53` (at the precision-loss boundary in magnitude)
passes the guard and constructs successfully instead of failing. -/
theorem hbar_fromTinybar_negative_unguarded :
    Hbar.fromTinybar (.number (-(2 : ℚ) ^ 53)) = .ok ⟨-(2 : ℚ) ^ 53⟩ := by
  norm_num [Hbar.fromTinybar, Hbar.construct, Hbar.checkFails, maxTinybar]

/-- Claim C8 (amended): for `number` inputs at or above `2^53`, `fromTinybar`
fails at the guard (the first statement of the function, before the
constructor's range check can run), whatever the relation of the input to
the 64-bit range. -/
theorem hbar_fromTinybar_guard (q : ℚ) (h : (2 : ℚ) ^ 53 ≤ q) :
    Hbar.fromTinybar (.number q) = .error .guardErr := by
  simp [Hbar.fromTinybar, h]

/-- Witness for the amended C8 theorem at the boundary input `2^53`
(a value far below the 64-bit range limit, showing the guard fires first). -/
theorem hbar_fromTinybar_guard_witness :
    Hbar.fromTinybar (.number ((2 : ℚ) ^ 53)) = .error .guardErr :=
  hbar_fromTinybar_guard ((2 : ℚ) ^ 53) le_rfl

/-- Claim C9: for any denomination and any atomic integer in the signed
64-bit range, `fromTinybar` stores it exactly, and converting with `as`
then rebuilding with `from` recovers exactly the original atomic value. -/
theorem hbar_as_fromUnit_roundtrip (u : HbarUnit) (v : ℤ)
    (h1 : -(2 ^ 63) ≤ v) (h2 : v ≤ 2 ^ 63 - 1) :
    Hbar.fromTinybar (.bignum (v : ℚ)) = .ok ⟨(v : ℚ)⟩ ∧
    Hbar.fromUnit (Hbar.as ⟨(v : ℚ)⟩ u) u = .ok ⟨(v : ℚ)⟩ := by
  have hv : (v : ℚ) ≤ maxTinybar := by
    rw [maxTinybar]
    have : ((2 ^ 63 - 1 : ℤ) : ℚ) = 2 ^ 63 - 1 := by push_cast; ring
    rw [← this]
    exact_mod_cast h2
  refine ⟨hbar_construction_exact.2.2 v hv, ?_⟩
  have hval : Hbar.as ⟨(v : ℚ)⟩ u * u.toTinybarCount = (v : ℚ) := by
    cases u <;> simp [Hbar.as, HbarUnit.toTinybarCount]
  have hcancel : Hbar.as ⟨(v : ℚ)⟩ u * u.toTinybarCount / 100000000 * 100000000 =
      Hbar.as ⟨(v : ℚ)⟩ u * u.toTinybarCount := div_mul_cancel₀ _ (by norm_num)
  rw [Hbar.fromUnit, Hbar.construct_ok (by rw [hcancel, hval]; exact hv), hcancel, hval]

/-- Witness for C9 at a concrete denomination and value. -/
theorem hbar_as_fromUnit_roundtrip_witness :
    Hbar.fromTinybar (.bignum ((123 : ℤ) : ℚ)) = .ok ⟨((123 : ℤ) : ℚ)⟩ ∧
    Hbar.fromUnit (Hbar.as ⟨((123 : ℤ) : ℚ)⟩ .kilobar) .kilobar = .ok ⟨((123 : ℤ) : ℚ)⟩ :=
  hbar_as_fromUnit_roundtrip .kilobar 123 (by norm_num) (by norm_num)

/-- Claim C10: the exchange-rate set mapper projects both `currentRate` and
`nextRate` from the set's current-rate field, so the result's two rates are
equal and the set's own next-rate field never reaches the returned value. -/
theorem exchangeRateSetToSdk_projects_current :
    (∀ s : ProtoExchangeRateSet,
      (exchangeRateSetToSdk s).nextRate = (exchangeRateSetToSdk s).currentRate ∧
      (exchangeRateSetToSdk s).currentRate = exchangeRateToSdk s.currentrate) ∧
    (∀ (s : ProtoExchangeRateSet) (r : ProtoExchangeRate),
      exchangeRateSetToSdk { s with nextrate := r } = exchangeRateSetToSdk s) := by
  exact ⟨fun s => ⟨rfl, rfl⟩, fun s r => rfl⟩

/-! ## JavaScript string primitives over character-code lists

JavaScript strings are modelled as `List Nat` of character codes. The
primitives below model `String.prototype.split` (with a one-character and a
multi-character separator), `String.prototype.includes` (as plain list
membership), `String.prototype.replace` with a one-character pattern and
empty replacement (which replaces only the first occurrence), and the
decimal `toString` / parse of `Long` values. -/

/-- Decimal rendering of a natural number as character codes (`'0' = 48`),
most significant digit first — `Long.toString` / `Number.toString` for
non-negative values. -/
def natStr (m : Nat) : List Nat :=
  if m = 0 then [48] else (Nat.digits 10 m).reverse.map (fun d => 48 + d)

/-- Decimal rendering of an integer, with a leading `'-' = 45` when
negative — `Long.toString`. -/
def intStr (n : Int) : List Nat :=
  if n < 0 then 45 :: natStr n.natAbs else natStr n.toNat

/-- Is the code a decimal digit (`'0'`..`'9'`)? -/
def isDigitCode (c : Nat) : Bool := 48 ≤ c && c ≤ 57

/-- Parse a non-empty all-digit code list as a natural number; `none`
models `Long.fromString` throwing on malformed input. -/
def parseNat (l : List Nat) : Option Nat :=
  if l = [] then none
  else if l.all isDigitCode then
    some (l.foldl (fun a c => 10 * a + (c - 48)) 0)
  else none

/-- Parse an optionally `'-'`-prefixed digit string as an integer —
`Long.fromString` / `Long.fromValue` on a string. -/
def parseInt (l : List Nat) : Option Int :=
  match l with
  | c :: rest =>
      if c = 45 then (parseNat rest).map (fun m => -(m : Int))
      else (parseNat l).map (fun m => (m : Int))
  | [] => none

/-- Accumulator version of splitting at every occurrence of the character
`c` — `String.prototype.split` with a one-character separator. -/
def splitOnCharAux (c : Nat) : List Nat → List Nat → List (List Nat)
  | [], acc => [acc.reverse]
  | x :: xs, acc =>
      if x = c then acc.reverse :: splitOnCharAux c xs []
      else splitOnCharAux c xs (x :: acc)

/-- `l.split(c)` for a one-character separator. -/
def splitOnChar (c : Nat) (l : List Nat) : List (List Nat) :=
  splitOnCharAux c l []

/-- Does `p` occur as a prefix of `l`? -/
def hasPrefixSeq : List Nat → List Nat → Bool
  | [], _ => true
  | _ :: _, [] => false
  | p :: ps, x :: xs => if p = x then hasPrefixSeq ps xs else false

/-- Accumulator version of splitting at every occurrence of the non-empty
separator `s0 :: st` — `String.prototype.split` with a multi-character
separator, scanning left to right. -/
def splitOnSeqAux (s0 : Nat) (st : List Nat) (l : List Nat) (acc : List Nat) :
    List (List Nat) :=
  match l with
  | [] => [acc.reverse]
  | x :: xs =>
      if hasPrefixSeq (s0 :: st) (x :: xs) then
        acc.reverse :: splitOnSeqAux s0 st (xs.drop st.length) []
      else
        splitOnSeqAux s0 st xs (x :: acc)
termination_by l.length
decreasing_by
  · simp [List.length_drop]
    omega
  · simp

/-- `l.split(sep)` for the non-empty separator `s0 :: st`. -/
def splitOnSeq (s0 : Nat) (st l : List Nat) : List (List Nat) :=
  splitOnSeqAux s0 st l []

/-- `l.replace(c, "")` for a one-character pattern: JavaScript
`String.prototype.replace` with a string pattern replaces only the first
occurrence. -/
def removeFirst (c : Nat) : List Nat → List Nat
  | [] => []
  | x :: xs => if x = c then xs else x :: removeFirst c xs

/-! ## Properties of the string primitives -/

theorem natStr_ne_nil (m : Nat) : natStr m ≠ [] := by
  unfold natStr
  split
  · simp
  · simp [Nat.digits_ne_nil_iff_ne_zero, *]

theorem mem_natStr {x m : Nat} (h : x ∈ natStr m) : 48 ≤ x ∧ x ≤ 57 := by
  unfold natStr at h
  split at h
  · simp at h
    omega
  · simp only [List.mem_map, List.mem_reverse] at h
    obtain ⟨d, hd, rfl⟩ := h
    have : d < 10 := Nat.digits_lt_base (by norm_num) hd
    omega

theorem mem_intStr {x : Nat} {n : Int} (h : x ∈ intStr n) :
    x = 45 ∨ (48 ≤ x ∧ x ≤ 57) := by
  unfold intStr at h
  split at h
  · rcases List.mem_cons.mp h with h | h
    · exact Or.inl h
    · exact Or.inr (mem_natStr h)
  · exact Or.inr (mem_natStr h)

theorem foldl_reverse_digits (L : List Nat) (a : Nat) :
    L.reverse.foldl (fun acc d => 10 * acc + d) a =
      a * 10 ^ L.length + Nat.ofDigits 10 L := by
  induction L generalizing a with
  | nil => simp
  | cons d T ih =>
      rw [List.reverse_cons, List.foldl_append]
      simp only [List.foldl_cons, List.foldl_nil, ih, Nat.ofDigits_cons,
        List.length_cons]
      ring

theorem natStr_all_digits (m : Nat) : (natStr m).all isDigitCode = true := by
  rw [List.all_eq_true]
  intro x hx
  have := mem_natStr hx
  simp [isDigitCode]
  omega

theorem parseNat_natStr (m : Nat) : parseNat (natStr m) = some m := by
  rw [parseNat, if_neg (natStr_ne_nil m), if_pos (natStr_all_digits m)]
  congr 1
  unfold natStr
  split
  · simp_all
  · rw [List.foldl_map]
    have hfun : (fun (x y : Nat) => 10 * x + (48 + y - 48)) =
        fun (x y : Nat) => 10 * x + y := by
      funext x y
      omega
    rw [hfun, foldl_reverse_digits]
    simpa using Nat.ofDigits_digits 10 m

theorem parseInt_intStr (n : Int) : parseInt (intStr n) = some n := by
  unfold intStr
  split
  · rw [parseInt, if_pos rfl, parseNat_natStr]
    show some (-(n.natAbs : Int)) = some n
    congr 1
    omega
  · rcases hs : natStr n.toNat with _ | ⟨c, t⟩
    · exact absurd hs (natStr_ne_nil _)
    · have hc : 48 ≤ c ∧ c ≤ 57 := mem_natStr (by rw [hs]; exact List.mem_cons_self c t)
      rw [parseInt, if_neg (by omega), ← hs, parseNat_natStr]
      show some ((n.toNat : Int)) = some n
      congr 1
      omega
theorem splitOnCharAux_no_sep {c : Nat} {l : List Nat} (h : c ∉ l) (acc : List Nat) :
    splitOnCharAux c l acc = [acc.reverse ++ l] := by
  induction l generalizing acc with
  | nil => simp [splitOnCharAux]
  | cons x xs ih =>
      rw [List.mem_cons] at h
      push_neg at h
      rw [splitOnCharAux, if_neg (Ne.symm h.1), ih h.2]
      simp

theorem splitOnCharAux_sep {c : Nat} {a b : List Nat} (h : c ∉ a) (acc : List Nat) :
    splitOnCharAux c (a ++ c :: b) acc = (acc.reverse ++ a) :: splitOnCharAux c b [] := by
  induction a generalizing acc with
  | nil => simp [splitOnCharAux]
  | cons x a' ih =>
      rw [List.mem_cons] at h
      push_neg at h
      rw [List.cons_append, splitOnCharAux, if_neg (Ne.symm h.1), ih h.2]
      simp

theorem splitOnChar_single {c : Nat} {a : List Nat} (h : c ∉ a) : splitOnChar c a = [a] := by
  simpa using splitOnCharAux_no_sep h []

theorem splitOnChar_pair {c : Nat} {a b : List Nat} (ha : c ∉ a) (hb : c ∉ b) :
    splitOnChar c (a ++ c :: b) = [a, b] := by
  rw [splitOnChar, splitOnCharAux_sep ha]
  rw [show splitOnCharAux c b [] = splitOnChar c b from rfl, splitOnChar_single hb]
  simp

theorem splitOnChar_triple {c : Nat} {a b d : List Nat}
    (ha : c ∉ a) (hb : c ∉ b) (hd : c ∉ d) :
    splitOnChar c (a ++ c :: (b ++ c :: d)) = [a, b, d] := by
  rw [splitOnChar, splitOnCharAux_sep ha]
  rw [show splitOnCharAux c (b ++ c :: d) [] = splitOnChar c (b ++ c :: d) from rfl]
  rw [splitOnChar_pair hb hd]
  simp

theorem hasPrefixSeq_append (p t : List Nat) : hasPrefixSeq p (p ++ t) = true := by
  induction p with
  | nil => simp [hasPrefixSeq]
  | cons x xs ih => simp [hasPrefixSeq, ih]

theorem hasPrefixSeq_head_ne {s0 x : Nat} (st xs : List Nat) (h : x ≠ s0) :
    hasPrefixSeq (s0 :: st) (x :: xs) = false := by
  rw [hasPrefixSeq, if_neg (Ne.symm h)]

theorem splitOnSeqAux_no_first {s0 : Nat} {st l : List Nat} (h : s0 ∉ l) (acc : List Nat) :
    splitOnSeqAux s0 st l acc = [acc.reverse ++ l] := by
  induction l generalizing acc with
  | nil => simp [splitOnSeqAux]
  | cons x xs ih =>
      rw [List.mem_cons] at h
      push_neg at h
      rw [splitOnSeqAux, if_neg (by rw [hasPrefixSeq_head_ne st xs (Ne.symm h.1)]; simp)]
      rw [ih h.2]
      simp

theorem splitOnSeqAux_found {s0 : Nat} {st a b : List Nat}
    (ha : s0 ∉ a) (hb : s0 ∉ b) (acc : List Nat) :
    splitOnSeqAux s0 st (a ++ (s0 :: st) ++ b) acc = [acc.reverse ++ a, b] := by
  induction a generalizing acc with
  | nil =>
      rw [List.nil_append, List.cons_append, splitOnSeqAux,
        if_pos (by rw [show s0 :: (st ++ b) = (s0 :: st) ++ b from rfl, hasPrefixSeq_append])]
      rw [List.drop_left, splitOnSeqAux_no_first hb]
      simp
  | cons x a' ih =>
      rw [List.mem_cons] at ha
      push_neg at ha
      rw [List.cons_append, List.cons_append, splitOnSeqAux,
        if_neg (by rw [hasPrefixSeq_head_ne _ _ (Ne.symm ha.1)]; simp)]
      rw [show ((a' ++ s0 :: st) ++ b : List Nat) = a' ++ (s0 :: st) ++ b by simp, ih ha.2]
      simp

theorem splitOnSeq_found {s0 : Nat} {st a b : List Nat} (ha : s0 ∉ a) (hb : s0 ∉ b) :
    splitOnSeq s0 st (a ++ (s0 :: st) ++ b) = [a, b] := by
  simpa using splitOnSeqAux_found ha hb []

/-! ## The transaction identifier

The class in the source file carries the `TransactionId` methods
(`fromString`, `toString`, `setScheduled`, `setNonce`, `compare`,
`_toProtobuf`, `_fromProtobuf`, `clone`); every construction site in it
invokes `new TransactionId(accountId, validStart, scheduled, nonce)`, whose
body is not part of the sources. The constructor is therefore modelled from
the spec (`mkTransactionId` below), and its nonce-zero normalization matches
the construction-time guard that does appear in the source file:
`this.nonce = null; if (nonce != null && nonce != 0) { this.setNonce(nonce); }`. -/

/-- Modelled from the spec: the external account-reference collaborator
`AccountId`, a `shard.realm.num` triple of `Long` values, with its own
parse / format / compare / binary contract. -/
structure AccountId where
  shard : Int
  realm : Int
  num : Int
  deriving DecidableEq, Repr

namespace AccountId

/-- Modelled from the spec: `AccountId.toString` renders
`shard.realm.num` in decimal. -/
def toStr (a : AccountId) : List Nat :=
  intStr a.shard ++ 46 :: (intStr a.realm ++ 46 :: intStr a.num)

/-- Modelled from the spec: `AccountId.fromString` parses
`shard.realm.num`; `none` models the collaborator throwing on malformed
input. -/
def fromStr (l : List Nat) : Option AccountId :=
  match splitOnChar 46 l with
  | [s, r, n] => do
      let shard ← parseInt s
      let realm ← parseInt r
      let num ← parseInt n
      some ⟨shard, realm, num⟩
  | _ => none

/-- Modelled from the spec: the account-reference comparator — `-1`/`0`/`1`
by shard, then realm, then num. -/
def compare (a b : AccountId) : Int :=
  if a.shard < b.shard then -1
  else if b.shard < a.shard then 1
  else if a.realm < b.realm then -1
  else if b.realm < a.realm then 1
  else if a.num < b.num then -1
  else if b.num < a.num then 1
  else 0

theorem accCompare_self (a : AccountId) : compare a a = 0 := by
  simp [compare]

end AccountId

/-- Modelled from the spec: the external `Timestamp` collaborator — integer
seconds plus integer nanoseconds. -/
structure Timestamp where
  seconds : Int
  nanos : Int
  deriving DecidableEq, Repr

namespace Timestamp

/-- Modelled from the spec: `Timestamp.compare` — `-1`/`0`/`1` by seconds,
then nanoseconds. -/
def compare (a b : Timestamp) : Int :=
  if a.seconds < b.seconds then -1
  else if b.seconds < a.seconds then 1
  else if a.nanos < b.nanos then -1
  else if b.nanos < a.nanos then 1
  else 0

theorem tsCompare_self (t : Timestamp) : compare t t = 0 := by
  simp [compare]

end Timestamp

/-- A transaction identifier: `accountId` (owner), `validStart`,
`scheduled`, and an optional `nonce` (`Long`, modelled as `Int`). The
source's `fromString`/`toString`/`compare`/`_toProtobuf` paths always have
`accountId` and `validStart` set, so the fields are not optional here. -/
structure TransactionId where
  accountId : AccountId
  validStart : Timestamp
  scheduled : Bool
  nonce : Option Int
  deriving DecidableEq, Repr

/-- Modelled from the spec: the `TransactionId` constructor. A supplied
nonce of exactly zero is treated as absent (`this.nonce = null; if (nonce
!= null && nonce != 0) { this.setNonce(nonce); }` in the source file's
construction guard); `scheduled` defaults to false when the caller passes
nothing (the parse path's undefined). -/
def mkTransactionId (accountId : AccountId) (validStart : Timestamp)
    (scheduled : Bool) (nonce : Option Int) : TransactionId :=
  { accountId := accountId
    validStart := validStart
    scheduled := scheduled
    nonce := match nonce with
      | none => none
      | some k => if k = 0 then none else some k }

namespace TransactionId

/-- `setNonce(nonce)` from the source: a plain assignment
(`this.nonce = ... nonce`), with no zero normalization. -/
def setNonce (t : TransactionId) (nonce : Int) : TransactionId :=
  { t with nonce := some nonce }

/-- `setScheduled(scheduled)` from the source: a plain assignment. -/
def setScheduled (t : TransactionId) (scheduled : Bool) : TransactionId :=
  { t with scheduled := scheduled }

/-- `toString()` from the source:
`` `${accountId}@${seconds}.${nanos}${scheduled}${nonce}` `` where the
scheduled marker is `?scheduled` and the nonce marker is `/<nonce>`,
each empty when unset. -/
def toStr (t : TransactionId) : List Nat :=
  AccountId.toStr t.accountId ++
    64 :: (intStr t.validStart.seconds ++
      46 :: (intStr t.validStart.nanos ++
        (if t.scheduled then [63, 115, 99, 104, 101, 100, 117, 108, 101, 100] else []) ++
        (match t.nonce with
          | some k => 47 :: intStr k
          | none => [])))

/-- `compare(other)` from the source: the account comparator's verdict if
nonzero, otherwise the timestamp comparator's. -/
def compare (a b : TransactionId) : Int :=
  let comparison := AccountId.compare a.accountId b.accountId
  if comparison ≠ 0 then comparison
  else Timestamp.compare a.validStart b.validStart

end TransactionId

/-- The `?scheduled` marker, `"?scheduled"` in the source. -/
def schedMarker : List Nat := [63, 115, 99, 104, 101, 100, 117, 108, 101, 100]

namespace TransactionId

/-- The constructor call at the end of `fromString`:
`new TransactionId(AccountId.fromString(account), new Timestamp(Long.fromValue(seconds),
Long.fromValue(nanos)), isScheduled, nonce != null ? Long.fromString(nonce) : null)`;
`none` models any of the collaborators throwing on a malformed component. -/
def buildParsed (account seconds nanos : List Nat) (isScheduled : Bool)
    (nonce : Option (List Nat)) : Option TransactionId := do
  let acc ← AccountId.fromStr account
  let s ← parseInt seconds
  let n ← parseInt nanos
  let nonceVal ← match nonce with
    | none => pure (none : Option Int)
    | some ns => (parseInt ns).map some
  pure (mkTransactionId acc ⟨s, n⟩ isScheduled nonceVal)

/-- `fromString(wholeId)` from the source. The destructurings
`[a, b] = x.split(sep)` keep the first two parts; a missing second part
leaves `undefined`, on which the subsequent `.includes`/`.split` call
throws — modelled as `none`. In the unscheduled branch the split at `/`
always has a second part because the branch requires `/` to occur. -/
def fromStr (wholeId : List Nat) : Option TransactionId :=
  match splitOnChar 64 wholeId with
  | account :: rest :: _ =>
      match splitOnChar 46 rest with
      | seconds :: rest2 :: _ =>
          if 63 ∈ rest2 then
            match splitOnSeq 63 [115, 99, 104, 101, 100, 117, 108, 101, 100] rest2 with
            | nanos :: rest3 :: _ =>
                buildParsed account seconds nanos true
                  (if 47 ∈ rest3 then some (removeFirst 47 rest3) else none)
            | _ => none
          else if 47 ∈ rest2 then
            match splitOnChar 47 rest2 with
            | nanos :: nonceStr :: _ =>
                buildParsed account seconds nanos false (some nonceStr)
            | _ => none
          else buildParsed account seconds rest2 false none
      | _ => none
  | _ => none

end TransactionId

/-! ### The protobuf binary form -/

/-- The wire record `proto.ITransactionID`: optional `accountID` and
`transactionValidStart` (each carried by the collaborator's own faithful
binary form), `scheduled`, and an optional `int32` nonce. -/
structure ProtoTransactionID where
  accountID : Option AccountId
  transactionValidStart : Option Timestamp
  scheduled : Bool
  nonce : Option Int
  deriving DecidableEq, Repr

/-- `Long.prototype.toInt()`: the low 32 bits of the 64-bit value,
interpreted as a signed 32-bit integer. -/
def longToInt (n : Int) : Int := (n + 2 ^ 31) % 2 ^ 32 - 2 ^ 31

namespace TransactionId

/-- `_toProtobuf()` from the source: both sub-messages are present (the
modelled identifiers always carry them), and the nonce goes through
`this.nonce.toInt()`. -/
def toProtobuf (t : TransactionId) : ProtoTransactionID :=
  { accountID := some t.accountId
    transactionValidStart := some t.validStart
    scheduled := t.scheduled
    nonce := t.nonce.map longToInt }

/-- `_fromProtobuf(id)` from the source: requires `accountID` and
`transactionValidStart`, then re-enters the constructor. -/
def fromProtobuf (p : ProtoTransactionID) : Option TransactionId :=
  match p.accountID, p.transactionValidStart with
  | some a, some t => some (mkTransactionId a t p.scheduled p.nonce)
  | _, _ => none

end TransactionId

/-! ### Character-class facts used by the round-trip proofs -/

theorem not_mem_intStr {x : Nat} (n : Int) (h45 : x ≠ 45)
    (hd : x < 48 ∨ 57 < x) : x ∉ intStr n := by
  intro hm
  rcases mem_intStr hm with h | h <;> omega

theorem mem_accStr {x : Nat} {a : AccountId} (h : x ∈ AccountId.toStr a) :
    x = 45 ∨ x = 46 ∨ (48 ≤ x ∧ x ≤ 57) := by
  simp only [AccountId.toStr, List.mem_append, List.mem_cons] at h
  rcases h with h | h | h | h | h
  · rcases mem_intStr h with h | h <;> omega
  · omega
  · rcases mem_intStr h with h | h <;> omega
  · omega
  · rcases mem_intStr h with h | h <;> omega

theorem not64_accStr (a : AccountId) : 64 ∉ AccountId.toStr a := by
  intro hm
  rcases mem_accStr hm with h | h | h <;> omega

theorem not45plus_intStr {x : Nat} (n : Int) (hd : 57 < x) : x ∉ intStr n :=
  not_mem_intStr n (by omega) (Or.inr hd)

theorem not46_intStr (n : Int) : (46 : Nat) ∉ intStr n :=
  not_mem_intStr n (by omega) (by omega)

theorem not47_intStr (n : Int) : (47 : Nat) ∉ intStr n :=
  not_mem_intStr n (by omega) (by omega)

theorem not63_intStr (n : Int) : (63 : Nat) ∉ intStr n :=
  not45plus_intStr n (by omega)

theorem not64_intStr (n : Int) : (64 : Nat) ∉ intStr n :=
  not45plus_intStr n (by omega)

theorem AccountId.fromStr_toStr (a : AccountId) :
    AccountId.fromStr (AccountId.toStr a) = some a := by
  rw [AccountId.toStr, AccountId.fromStr,
    splitOnChar_triple (not46_intStr a.shard) (not46_intStr a.realm) (not46_intStr a.num)]
  simp [parseInt_intStr]

theorem not64_rest {s n : Int} {e : List Nat}
    (he : ∀ x ∈ e, x ≠ 64) : (64 : Nat) ∉ intStr s ++ 46 :: (intStr n ++ e) := by
  simp only [List.mem_append, List.mem_cons, not_or]
  refine ⟨not64_intStr s, by omega, not64_intStr n, fun hm => he 64 hm rfl⟩

theorem not46_tail {n : Int} {e : List Nat}
    (he : ∀ x ∈ e, x ≠ 46) : (46 : Nat) ∉ intStr n ++ e := by
  simp only [List.mem_append, not_or]
  exact ⟨not46_intStr n, fun hm => he 46 hm rfl⟩

theorem TransactionId.fromStr_toStr_raw (acc : AccountId) (s n : Int) (sch : Bool)
    (nn : Option Int) (hnz : nn ≠ some 0) :
    TransactionId.fromStr (TransactionId.toStr ⟨acc, ⟨s, n⟩, sch, nn⟩) =
      some ⟨acc, ⟨s, n⟩, sch, nn⟩ := by
  rcases nn with _ | k
  · cases sch
    · -- not scheduled, no nonce: `acc@s.n`
      have e1 : splitOnChar 64
          (AccountId.toStr acc ++ 64 :: (intStr s ++ 46 :: intStr n)) =
          [AccountId.toStr acc, intStr s ++ 46 :: intStr n] :=
        splitOnChar_pair (not64_accStr acc)
          (by simpa using @not64_rest s n [] (by simp))
      have e2 : splitOnChar 46 (intStr s ++ 46 :: intStr n) = [intStr s, intStr n] :=
        splitOnChar_pair (not46_intStr s) (not46_intStr n)
      simp [TransactionId.toStr, TransactionId.fromStr, e1, e2,
        not63_intStr n, not47_intStr n, TransactionId.buildParsed,
        AccountId.fromStr_toStr, parseInt_intStr, mkTransactionId]
    · -- scheduled, no nonce: `acc@s.n?scheduled`
      have e1 : splitOnChar 64
          (AccountId.toStr acc ++ 64 :: (intStr s ++ 46 ::
            (intStr n ++ [63, 115, 99, 104, 101, 100, 117, 108, 101, 100]))) =
          [AccountId.toStr acc, intStr s ++ 46 ::
            (intStr n ++ [63, 115, 99, 104, 101, 100, 117, 108, 101, 100])] :=
        splitOnChar_pair (not64_accStr acc) (not64_rest (by decide))
      have e2 : splitOnChar 46 (intStr s ++ 46 ::
          (intStr n ++ [63, 115, 99, 104, 101, 100, 117, 108, 101, 100])) =
          [intStr s, intStr n ++ [63, 115, 99, 104, 101, 100, 117, 108, 101, 100]] :=
        splitOnChar_pair (not46_intStr s) (not46_tail (by decide))
      have e3 : splitOnSeq 63 [115, 99, 104, 101, 100, 117, 108, 101, 100]
          (intStr n ++ [63, 115, 99, 104, 101, 100, 117, 108, 101, 100]) =
          [intStr n, []] := by
        have := @splitOnSeq_found 63 [115, 99, 104, 101, 100, 117, 108, 101, 100]
          (intStr n) [] (not63_intStr n) (by simp)
        simpa using this
      simp [TransactionId.toStr, TransactionId.fromStr, e1, e2, e3,
        TransactionId.buildParsed, AccountId.fromStr_toStr, parseInt_intStr,
        mkTransactionId]
  · have hk : k ≠ 0 := fun h => hnz (by rw [h])
    cases sch
    · -- not scheduled, nonce: `acc@s.n/k`
      have e1 : splitOnChar 64
          (AccountId.toStr acc ++ 64 :: (intStr s ++ 46 :: (intStr n ++ 47 :: intStr k))) =
          [AccountId.toStr acc, intStr s ++ 46 :: (intStr n ++ 47 :: intStr k)] :=
        splitOnChar_pair (not64_accStr acc)
          (not64_rest (by
            intro x hx
            rcases List.mem_cons.mp hx with rfl | hx
            · omega
            · have := mem_intStr hx
              omega))
      have e2 : splitOnChar 46 (intStr s ++ 46 :: (intStr n ++ 47 :: intStr k)) =
          [intStr s, intStr n ++ 47 :: intStr k] :=
        splitOnChar_pair (not46_intStr s)
          (not46_tail (by
            intro x hx
            rcases List.mem_cons.mp hx with rfl | hx
            · omega
            · have := mem_intStr hx
              omega))
      have e3 : splitOnChar 47 (intStr n ++ 47 :: intStr k) = [intStr n, intStr k] :=
        splitOnChar_pair (not47_intStr n) (not47_intStr k)
      have h63 : (63 : Nat) ∉ intStr n ++ 47 :: intStr k := by
        simp only [List.mem_append, List.mem_cons, not_or]
        exact ⟨not63_intStr n, by omega, not63_intStr k⟩
      simp [TransactionId.toStr, TransactionId.fromStr, e1, e2, e3, h63,
        TransactionId.buildParsed, AccountId.fromStr_toStr, parseInt_intStr,
        mkTransactionId, hk]
    · -- scheduled, nonce: `acc@s.n?scheduled/k`
      have e1 : splitOnChar 64
          (AccountId.toStr acc ++ 64 :: (intStr s ++ 46 :: (intStr n ++
            63 :: 115 :: 99 :: 104 :: 101 :: 100 :: 117 :: 108 :: 101 :: 100 ::
              47 :: intStr k))) =
          [AccountId.toStr acc, intStr s ++ 46 :: (intStr n ++
            63 :: 115 :: 99 :: 104 :: 101 :: 100 :: 117 :: 108 :: 101 :: 100 ::
              47 :: intStr k)] := by
        refine splitOnChar_pair (not64_accStr acc) ?_
        simp only [List.mem_append, List.mem_cons, not_or]
        refine ⟨not64_intStr s, by omega, not64_intStr n, by omega, by omega, by omega,
          by omega, by omega, by omega, by omega, by omega, by omega, by omega, by omega,
          not64_intStr k⟩
      have e2 : splitOnChar 46 (intStr s ++ 46 :: (intStr n ++
          63 :: 115 :: 99 :: 104 :: 101 :: 100 :: 117 :: 108 :: 101 :: 100 ::
            47 :: intStr k)) =
          [intStr s, intStr n ++
            63 :: 115 :: 99 :: 104 :: 101 :: 100 :: 117 :: 108 :: 101 :: 100 ::
              47 :: intStr k] := by
        refine splitOnChar_pair (not46_intStr s) ?_
        simp only [List.mem_append, List.mem_cons, not_or]
        refine ⟨not46_intStr n, by omega, by omega, by omega, by omega, by omega,
          by omega, by omega, by omega, by omega, by omega, by omega, not46_intStr k⟩
      have e3 : splitOnSeq 63 [115, 99, 104, 101, 100, 117, 108, 101, 100]
          (intStr n ++
            63 :: 115 :: 99 :: 104 :: 101 :: 100 :: 117 :: 108 :: 101 :: 100 ::
              47 :: intStr k) = [intStr n, 47 :: intStr k] := by
        have := @splitOnSeq_found 63 [115, 99, 104, 101, 100, 117, 108, 101, 100]
          (intStr n) (47 :: intStr k) (not63_intStr n)
          (by
            simp only [List.mem_cons, not_or]
            exact ⟨by omega, not63_intStr k⟩)
        simpa using this
      simp [TransactionId.toStr, TransactionId.fromStr, e1, e2, e3,
        TransactionId.buildParsed, AccountId.fromStr_toStr, parseInt_intStr,
        mkTransactionId, removeFirst, hk]

/-! ## Claim theorems for the transaction identifier -/

/-- Claim C2: for every identifier constructed from an owner and a
validStart, parsing the canonical text form produced by formatting yields
the identifier back field-for-field, across all four combinations of
scheduled true/false and nonce present/absent (a constructed identifier
normalizes a zero nonce to absent on both sides of the round trip). -/
theorem transactionId_parse_format_roundtrip (acc : AccountId) (ts : Timestamp)
    (sch : Bool) (nonce : Option Int) :
    TransactionId.fromStr (TransactionId.toStr (mkTransactionId acc ts sch nonce)) =
      some (mkTransactionId acc ts sch nonce) := by
  obtain ⟨s, n⟩ := ts
  rcases nonce with _ | k
  · exact TransactionId.fromStr_toStr_raw acc s n sch none (by simp)
  · by_cases hk : k = 0
    · subst hk
      exact TransactionId.fromStr_toStr_raw acc s n sch none (by simp)
    · have hmk : mkTransactionId acc ⟨s, n⟩ sch (some k) = ⟨acc, ⟨s, n⟩, sch, some k⟩ := by
        simp [mkTransactionId, hk]
      rw [hmk]
      exact TransactionId.fromStr_toStr_raw acc s n sch (some k) (by simpa using hk)

/-- Claim C4 (counterexample): the binary round trip truncates the nonce
through `Long.toInt` — the identifier with nonce `2^32` decodes with nonce
absent (the truncated value `0` is then normalized away by the
constructor), so `decode(encode(I)) != I` for a nonce outside the signed
32-bit range. -/
theorem transactionId_protobuf_nonce_truncated :
    TransactionId.fromProtobuf (TransactionId.toProtobuf
        (mkTransactionId ⟨0, 0, 3⟩ ⟨5, 7⟩ false (some (2 ^ 32)))) =
      some (mkTransactionId ⟨0, 0, 3⟩ ⟨5, 7⟩ false none) ∧
    (mkTransactionId ⟨0, 0, 3⟩ ⟨5, 7⟩ false (some (2 ^ 32))).nonce = some (2 ^ 32) := by
  constructor
  · simp [mkTransactionId, TransactionId.toProtobuf, TransactionId.fromProtobuf,
      longToInt, Option.map]
  · simp [mkTransactionId]

/-- Claim C4 (amended): the binary round trip `decode(encode(I)) = I` holds
for all four scheduled × nonce-present combinations provided any present
nonce lies in the signed 32-bit range that `Long.toInt` preserves. -/
theorem transactionId_protobuf_roundtrip (acc : AccountId) (ts : Timestamp)
    (sch : Bool) (nonce : Option Int)
    (h : ∀ k, nonce = some k → -(2 ^ 31) ≤ k ∧ k < 2 ^ 31) :
    TransactionId.fromProtobuf (TransactionId.toProtobuf
        (mkTransactionId acc ts sch nonce)) =
      some (mkTransactionId acc ts sch nonce) := by
  rcases nonce with _ | k
  · simp [mkTransactionId, TransactionId.toProtobuf, TransactionId.fromProtobuf]
  · obtain ⟨h1, h2⟩ := h k rfl
    by_cases hk : k = 0
    · subst hk
      simp [mkTransactionId, TransactionId.toProtobuf, TransactionId.fromProtobuf]
    · have ht : longToInt k = k := by
        unfold longToInt
        omega
      simp [mkTransactionId, hk, TransactionId.toProtobuf, TransactionId.fromProtobuf, ht]

/-- Witness for the amended C4 theorem at a concrete identifier with an
in-range nonce. -/
theorem transactionId_protobuf_roundtrip_witness :
    TransactionId.fromProtobuf (TransactionId.toProtobuf
        (mkTransactionId ⟨0, 0, 3⟩ ⟨5, 7⟩ true (some 42))) =
      some (mkTransactionId ⟨0, 0, 3⟩ ⟨5, 7⟩ true (some 42)) :=
  transactionId_protobuf_roundtrip ⟨0, 0, 3⟩ ⟨5, 7⟩ true (some 42)
    (fun k hk => by injection hk with h; subst h; norm_num)

/-- Claim C6 (counterexample): `setNonce(0)` does not normalize to absent —
it stores an explicit zero, and the formatted string then ends with the
`/0` suffix (`47, 48` are the codes of `/` and `0`). -/
theorem transactionId_setNonce_zero_keeps_suffix :
    (TransactionId.setNonce (mkTransactionId ⟨0, 0, 1001⟩ ⟨5, 7⟩ false none) 0).nonce =
      some 0 ∧
    TransactionId.toStr (TransactionId.setNonce
        (mkTransactionId ⟨0, 0, 1001⟩ ⟨5, 7⟩ false none) 0) =
      TransactionId.toStr (mkTransactionId ⟨0, 0, 1001⟩ ⟨5, 7⟩ false none) ++ [47, 48] := by
  constructor
  · rfl
  · simp [TransactionId.toStr, TransactionId.setNonce, mkTransactionId, intStr, natStr]

/-- Claim C6 (amended): a zero nonce supplied at construction normalizes to
absent, so the formatted string carries no `/0` suffix; but `setNonce(0)`
stores an explicit zero and the formatted string then ends with `/0`. -/
theorem transactionId_nonce_zero_normalization (acc : AccountId) (ts : Timestamp)
    (sch : Bool) :
    (mkTransactionId acc ts sch (some 0)).nonce = none ∧
    TransactionId.toStr (mkTransactionId acc ts sch (some 0)) =
      TransactionId.toStr (mkTransactionId acc ts sch none) ∧
    TransactionId.toStr (TransactionId.setNonce (mkTransactionId acc ts sch none) 0) =
      TransactionId.toStr (mkTransactionId acc ts sch none) ++ [47, 48] := by
  refine ⟨by simp [mkTransactionId], rfl, ?_⟩
  simp [TransactionId.toStr, TransactionId.setNonce, mkTransactionId, intStr, natStr]

/-- Claim C7: identifier comparison orders by owner first (delegating to
the account-reference comparator), then by validStart (via the timestamp
comparator: seconds, then nanos), and ignores `scheduled` and `nonce`
entirely — two identifiers agreeing on owner and validStart compare equal
whatever their scheduled and nonce fields. -/
theorem transactionId_compare_ignores_scheduled_nonce :
    (∀ (o : AccountId) (t : Timestamp) (s1 s2 : Bool) (n1 n2 : Option Int),
      TransactionId.compare (mkTransactionId o t s1 n1) (mkTransactionId o t s2 n2) = 0) ∧
    (∀ a b : TransactionId,
      TransactionId.compare a b =
        if AccountId.compare a.accountId b.accountId = 0 then
          Timestamp.compare a.validStart b.validStart
        else AccountId.compare a.accountId b.accountId) := by
  constructor
  · intro o t s1 s2 n1 n2
    simp [TransactionId.compare, mkTransactionId, AccountId.accCompare_self,
      Timestamp.tsCompare_self]
  · intro a b
    rw [TransactionId.compare]
    by_cases h : AccountId.compare a.accountId b.accountId = 0 <;> simp [h]
